import Mathlib

/-!
Verification development for the notes_board repository.

The development shallowly embeds the client-side core of the application:

* the JSON handling helpers of `src/web/src/components/NoteCard.tsx` /
  `src/web/src/pages/Dashboard.tsx` (`safeJsonParse`, `cleanBody`,
  `startOfToday`, `startOfWeekMonday`),
* the position tracker `setNewOffset` and the drag-gesture handlers of
  `NoteCard`,
* the dashboard aggregation (`stats`, `createdLineData`) of `Dashboard.tsx`,
* the role-check middleware `authorizeRole`.

Modelling conventions:

* JavaScript's `JSON.parse` is embedded as a fueled recursive-descent parser
  `jsonParse` over `List Char` returning `Option Json`; `none` plays the role
  of a thrown `SyntaxError`.  JSON numbers are modelled as integers (the
  repository never stores fractional numbers in note fields); a numeral with
  a fraction or exponent part is rejected by the model parser.  All general
  theorems are stated conditionally on the outcome of `jsonParse`, so they
  are insensitive to this restriction.
* JavaScript timestamps are milliseconds since the epoch, embedded as `Int`.
  Local time is modelled with a fixed UTC offset (so `setHours(0,0,0,0)`
  is flooring to a multiple of `msPerDay`, and `setDate(getDate() + k)`
  adds `k * msPerDay`).  `Date.prototype.getDay` (0 = Sunday .. 6 = Saturday)
  becomes `jsGetDay`; day 0 of the epoch is a Thursday, hence the `+ 4`.
  A `string | undefined` timestamp field that is missing, empty, or does not
  parse to a valid date is modelled as `none` (all those cases flow into the
  same `NaN`-guarded skip in the source).
* JavaScript objects used as string-keyed maps (`colorsCount`) are embedded
  as association lists in insertion order, matching `Object.entries`
  enumeration order for the non-integer-like keys the application uses.
-/

namespace NotesBoard

/-! ## JSON values and `JSON.parse` -/

/-- JSON values produced by `JSON.parse`.  Numbers are restricted to
integers (see the module docstring). -/
inductive Json where
  | null : Json
  | bool (b : Bool) : Json
  | num (n : Int) : Json
  | str (s : String) : Json
  | arr (elems : List Json) : Json
  | obj (fields : List (String × Json)) : Json

/-- Characters removed by `String.prototype.trim` (the ASCII ones; the
application never stores the exotic Unicode space characters). -/
def isTrimWs (c : Char) : Bool :=
  c = ' ' || c = '\t' || c = '\n' || c = '\r' || c = '\x0b' || c = '\x0c'

/-- JavaScript `s.trim()`. -/
def jsTrim (s : String) : String :=
  String.mk (((s.data.dropWhile isTrimWs).reverse.dropWhile isTrimWs).reverse)

/-- Insignificant whitespace of the JSON grammar. -/
def isJsonWs (c : Char) : Bool := c = ' ' || c = '\t' || c = '\n' || c = '\r'

def skipWs (cs : List Char) : List Char := cs.dropWhile isJsonWs

/-- Single-character escapes of JSON string literals. -/
def escChar (c : Char) : Option Char :=
  if c = '"' then some '"'
  else if c = '\\' then some '\\'
  else if c = '/' then some '/'
  else if c = 'b' then some (Char.ofNat 8)
  else if c = 'f' then some (Char.ofNat 12)
  else if c = 'n' then some '\n'
  else if c = 'r' then some '\r'
  else if c = 't' then some '\t'
  else none

def hexVal (c : Char) : Option Nat :=
  if '0' ≤ c ∧ c ≤ '9' then some (c.toNat - 48)
  else if 'a' ≤ c ∧ c ≤ 'f' then some (c.toNat - 87)
  else if 'A' ≤ c ∧ c ≤ 'F' then some (c.toNat - 55)
  else none

/-- Body of a JSON string literal, after the opening quote.  Returns the
decoded characters and the input remaining after the closing quote. -/
def parseStringBody : List Char → Option (List Char × List Char)
  | [] => none
  | '"' :: rest => some ([], rest)
  | '\\' :: 'u' :: h1 :: h2 :: h3 :: h4 :: rest =>
    match hexVal h1, hexVal h2, hexVal h3, hexVal h4 with
    | some a, some b, some c, some d =>
      (parseStringBody rest).map fun p => (Char.ofNat (((a*16+b)*16+c)*16+d) :: p.1, p.2)
    | _, _, _, _ => none
  | '\\' :: c :: rest =>
    match escChar c with
    | some e => (parseStringBody rest).map fun p => (e :: p.1, p.2)
    | none => none
  | c :: rest =>
    if c.toNat < 32 then none
    else (parseStringBody rest).map fun p => (c :: p.1, p.2)

/-- JSON numeral (integer part only, leading zeros rejected as in the JSON
grammar; fraction/exponent parts are out of the model, see above). -/
def parseNumber (cs : List Char) : Option (Int × List Char) :=
  let p := match cs with
    | '-' :: r => (true, r)
    | _ => (false, cs)
  match p.2 with
  | [] => none
  | c :: _ =>
    if ¬ c.isDigit then none
    else
      let ds := p.2.takeWhile Char.isDigit
      let rest := p.2.dropWhile Char.isDigit
      if ds.length > 1 ∧ ds.headD '0' = '0' then none
      else
        match rest with
        | '.' :: _ => none
        | 'e' :: _ => none
        | 'E' :: _ => none
        | _ =>
          let n : Nat := ds.foldl (fun a ch => a * 10 + (ch.toNat - 48)) 0
          some (if p.1 then -(n : Int) else (n : Int), rest)

mutual

/-- One JSON value (fueled recursive descent). -/
def parseVal : Nat → List Char → Option (Json × List Char)
  | 0, _ => none
  | fuel+1, cs =>
    match skipWs cs with
    | [] => none
    | c :: rest =>
      if c = 'n' then
        match rest with
        | 'u' :: 'l' :: 'l' :: r => some (Json.null, r)
        | _ => none
      else if c = 't' then
        match rest with
        | 'r' :: 'u' :: 'e' :: r => some (Json.bool true, r)
        | _ => none
      else if c = 'f' then
        match rest with
        | 'a' :: 'l' :: 's' :: 'e' :: r => some (Json.bool false, r)
        | _ => none
      else if c = '"' then
        (parseStringBody rest).map fun p => (Json.str (String.mk p.1), p.2)
      else if c = '[' then
        match skipWs rest with
        | ']' :: r => some (Json.arr [], r)
        | _ => (parseElems fuel rest).map fun p => (Json.arr p.1, p.2)
      else if c = '\x7b' then
        match skipWs rest with
        | '\x7d' :: r => some (Json.obj [], r)
        | _ => (parseMembers fuel rest).map fun p => (Json.obj p.1, p.2)
      else (parseNumber (c :: rest)).map fun p => (Json.num p.1, p.2)

/-- Comma-separated array elements, up to and including `]`. -/
def parseElems : Nat → List Char → Option (List Json × List Char)
  | 0, _ => none
  | fuel+1, cs =>
    match parseVal fuel cs with
    | none => none
    | some (j, rest) =>
      match skipWs rest with
      | ',' :: r => (parseElems fuel r).map fun p => (j :: p.1, p.2)
      | ']' :: r => some ([j], r)
      | _ => none

/-- Comma-separated object members, up to and including the closing brace. -/
def parseMembers : Nat → List Char → Option (List (String × Json) × List Char)
  | 0, _ => none
  | fuel+1, cs =>
    match skipWs cs with
    | '"' :: rest =>
      match parseStringBody rest with
      | none => none
      | some (key, rest1) =>
        match skipWs rest1 with
        | ':' :: rest2 =>
          match parseVal fuel rest2 with
          | none => none
          | some (v, rest3) =>
            match skipWs rest3 with
            | ',' :: r => (parseMembers fuel r).map fun p => ((String.mk key, v) :: p.1, p.2)
            | '\x7d' :: r => some ([(String.mk key, v)], r)
            | _ => none
        | _ => none
    | _ => none

end

/-- JavaScript `JSON.parse`: `none` models a thrown `SyntaxError`.  The fuel
`2 * length + 2` dominates the recursion depth, since every descent into a
nested array or object consumes at least one input character. -/
def jsonParse (s : String) : Option Json :=
  match parseVal (2 * s.data.length + 2) s.data with
  | some (j, rest) => if skipWs rest = [] then some j else none
  | none => none

mutual

/-- JavaScript `String(v)` conversion of a parsed JSON value. -/
def jsToString : Json → String
  | Json.null => "null"
  | Json.bool true => "true"
  | Json.bool false => "false"
  | Json.num n => toString n
  | Json.str s => s
  | Json.arr xs => String.intercalate "," (jsToStringElems xs)
  | Json.obj _ => "[object Object]"

/-- Element rendering of `Array.prototype.toString`: `null` elements render
as the empty string. -/
def jsToStringElems : List Json → List String
  | [] => []
  | Json.null :: rest => "" :: jsToStringElems rest
  | j :: rest => jsToString j :: jsToStringElems rest

end

/-! ## Utility functions of `utils.ts` / `Dashboard.tsx` -/

/-- Source (`Dashboard.tsx`, also duplicated in `utils.ts`):

    function safeJsonParse<T>(value: string, fallback: T): T {
      try { return JSON.parse(value) as T; } catch { return fallback; }
    }

specialised to the JSON-value result the dashboard uses it at. -/
def safeJsonParse (value : String) (fallback : Json) : Json :=
  (jsonParse value).getD fallback

/-- Source (`Dashboard.tsx`, also duplicated in `utils.ts`):

    function cleanBody(raw: string) {
      const t = (raw ?? "").trim();
      try {
        const parsed = JSON.parse(t);
        if (typeof parsed === "string") return parsed.trim();
        return String(parsed ?? "").trim();
      } catch { return t; }
    }

The `some Json.null` branch is `String(parsed ?? "")` with `parsed = null`,
that is `String("") = ""`. -/
def cleanBody (raw : String) : String :=
  let t := jsTrim raw
  match jsonParse t with
  | some (Json.str s) => jsTrim s
  | some Json.null => ""
  | some v => jsTrim (jsToString v)
  | none => t

/-! ## Time helpers -/

def msPerDay : Int := 86400000

/-- JavaScript `d.setHours(0,0,0,0)` applied to the instant `t`
(fixed-offset local time): floor `t` to a multiple of `msPerDay`. -/
def msMidnight (t : Int) : Int := t - t % msPerDay

/-- JavaScript `d.getDay()` for the instant `t`: 0 = Sunday .. 6 = Saturday.
Day 0 of the epoch (Jan 1 1970) is a Thursday, i.e. weekday 4. -/
def jsGetDay (t : Int) : Int := (t / msPerDay + 4) % 7

/-- Source (`Dashboard.tsx`, also duplicated in `utils.ts`):

    function startOfToday() {
      const d = new Date(); d.setHours(0, 0, 0, 0); return d.getTime();
    }

as a function of the current instant `now`. -/
def startOfToday (now : Int) : Int := msMidnight now

/-- Source (`Dashboard.tsx`, also duplicated in `utils.ts`):

    function startOfWeekMonday() {
      const d = new Date();
      d.setHours(0, 0, 0, 0);
      const day = d.getDay(); // 0 Sun ... 6 Sat
      const diff = (day === 0 ? -6 : 1) - day; // back to Monday
      d.setDate(d.getDate() + diff);
      return d.getTime();
    }

as a function of the current instant `now`. -/
def startOfWeekMonday (now : Int) : Int :=
  let mid := msMidnight now
  let day := jsGetDay now
  let diff := (if day = 0 then -6 else 1) - day
  mid + diff * msPerDay

/-! ## Position tracker -/

/-- The `Position` record type of `types.ts` (coordinates in CSS pixels). -/
structure Position where
  x : Int
  y : Int
deriving DecidableEq

/-- The two DOM offsets of the card element read by `setNewOffset`.  The
card's style sets `left`/`top` from the rendered position state, so these
offsets equal the current position. -/
structure CardOffsets where
  offsetLeft : Int
  offsetTop : Int
deriving DecidableEq

/-- Source (`utils.ts`):

    export function setNewOffset(card, mouseMoveDir = \x7b x: 0, y: 0 \x7d) {
      const offsetLeft = card.offsetLeft - mouseMoveDir.x;
      const offsetTop = card.offsetTop - mouseMoveDir.y;
      return {
        x: offsetLeft < 0 ? 0 : offsetLeft,
        y: offsetTop < 0 ? 0 : offsetTop,
      };
    }
-/
def setNewOffset (card : CardOffsets) (mouseMoveDir : Position) : Position :=
  let offsetLeft := card.offsetLeft - mouseMoveDir.x
  let offsetTop := card.offsetTop - mouseMoveDir.y
  { x := if offsetLeft < 0 then 0 else offsetLeft,
    y := if offsetTop < 0 then 0 else offsetTop }

/-! ## Notes as stored and as parsed by the dashboard -/

/-- A stored note as the client receives it (the `Note` type of `types.ts`
plus the timestamp/owner fields used by the dashboard).  `body`, `colors`
and `position` are JSON-encoded strings.  Timestamps are pre-decoded to
`Option Int` (see the module docstring). -/
structure RawNote where
  body : String
  colors : String
  position : String
  createdAt : Option Int := none
  updatedAt : Option Int := none
  user_id : Option String := none

/-- A note after the dashboard's parsing pass (`ParsedNote` in
`Dashboard.tsx`).  `colors`/`position` hold `Json.null` when the stored
string was malformed (the `safeJsonParse` fallback) or literally `null`. -/
structure ParsedNote where
  body : String
  colors : Json
  position : Json
  createdAt : Option Int := none
  updatedAt : Option Int := none
  user_id : Option String := none

/-- Source (`Dashboard.tsx`):

    rawNotes.map((n) => (\x7b
      _id: n._id,
      body: cleanBody(n.body),
      colors: safeJsonParse<Colors | null>(n.colors, null),
      position: safeJsonParse<Position | null>(n.position, null),
      createdAt: n.createdAt, updatedAt: n.updatedAt, user_id: n.user_id,
    \x7d));
-/
def parseNote (n : RawNote) : ParsedNote :=
  { body := cleanBody n.body,
    colors := safeJsonParse n.colors Json.null,
    position := safeJsonParse n.position Json.null,
    createdAt := n.createdAt,
    updatedAt := n.updatedAt,
    user_id := n.user_id }

/-- The values a successful `NoteCard` render computes from its note prop. -/
structure RenderedCard where
  colors : Json
  body : Json
  position : Json

/-- Source (`NoteCard.tsx`):

    const colors = JSON.parse(note.colors);
    const body = JSON.parse(note.body);
    const [position, setPositon] = useState<Position>(JSON.parse(note.position));

Raw `JSON.parse` calls: a malformed field makes the render throw, modelled
as `none`. -/
def renderNoteCard (n : RawNote) : Option RenderedCard :=
  match jsonParse n.colors with
  | none => none
  | some c =>
    match jsonParse n.body with
    | none => none
    | some b =>
      match jsonParse n.position with
      | none => none
      | some p => some { colors := c, body := b, position := p }

/-! ## Dashboard aggregation -/

/-- Lookup of an object property: with duplicate keys `JSON.parse` keeps the
last occurrence. -/
def lookupField (fields : List (String × Json)) (key : String) : Option Json :=
  (fields.reverse.find? (fun kv => kv.1 = key)).map (fun kv => kv.2)

/-- The expression `n.colors?.id ?? "unknown"` of `Dashboard.tsx`: optional
chaining yields `undefined` on any non-object, `??` replaces `null` and
`undefined` by `"unknown"`, and a defined non-string value is coerced by the
`colorsCount[key]` property access with the `String(v)` conversion. -/
def colorIdOf : Json → String
  | Json.obj fields =>
    match lookupField fields "id" with
    | some Json.null => "unknown"
    | some v => jsToString v
    | none => "unknown"
  | _ => "unknown"

def colorKey (n : ParsedNote) : String := colorIdOf n.colors

/-- The statement `colorsCount[key] = (colorsCount[key] ?? 0) + 1` on a plain
object, as an insertion-ordered association list: a present key is bumped in
place, a new key is appended with count 1. -/
def bump : List (String × Nat) → String → List (String × Nat)
  | [], k => [(k, 1)]
  | (k', c) :: rest, k =>
    if k' = k then (k', c + 1) :: rest else (k', c) :: bump rest k

/-- Accumulator of the single `for (const n of filteredNotes)` loop of the
`stats` memo in `Dashboard.tsx`. -/
structure StatsAcc where
  withBody : Nat := 0
  emptyBody : Nat := 0
  createdToday : Nat := 0
  createdThisWeek : Nat := 0
  updatedToday : Nat := 0
  colorsCount : List (String × Nat) := []

/-- One iteration of the `stats` loop.  `today`/`weekStart` are the
`startOfToday()`/`startOfWeekMonday()` instants; a `none` timestamp is the
`NaN` case whose comparisons are all false. -/
def statsStep (today weekStart : Int) (a : StatsAcc) (n : ParsedNote) : StatsAcc :=
  let a := if n.body.length > 0
    then { a with withBody := a.withBody + 1 }
    else { a with emptyBody := a.emptyBody + 1 }
  let a := { a with colorsCount := bump a.colorsCount (colorKey n) }
  let a := match n.createdAt with
    | some cAt =>
      let a := if cAt ≥ today then { a with createdToday := a.createdToday + 1 } else a
      if cAt ≥ weekStart then { a with createdThisWeek := a.createdThisWeek + 1 } else a
    | none => a
  match n.updatedAt with
  | some uAt => if uAt ≥ today then { a with updatedToday := a.updatedToday + 1 } else a
  | none => a

/-- The `let top = -1; for (const [k, v] of Object.entries(colorsCount))`
loop choosing `topColor`: strict `v > top`, so on ties the earlier entry
wins. -/
def pickTopAux : Option String → Int → List (String × Nat) → Option String
  | best, _, [] => best
  | best, top, (k, v) :: rest =>
    if (v : Int) > top then pickTopAux (some k) v rest else pickTopAux best top rest

def pickTop (cc : List (String × Nat)) : Option String := pickTopAux none (-1) cc

/-- The `Stats` record of `Dashboard.tsx`. -/
structure Stats where
  total : Nat
  withBody : Nat
  emptyBody : Nat
  createdToday : Nat
  createdThisWeek : Nat
  updatedToday : Nat
  colorsCount : List (String × Nat)
  topColor : Option String
deriving DecidableEq

/-- The `stats` memo of `Dashboard.tsx` over the (already filtered and
parsed) note list. -/
def stats (today weekStart : Int) (notes : List ParsedNote) : Stats :=
  let a := notes.foldl (statsStep today weekStart) {}
  { total := notes.length,
    withBody := a.withBody,
    emptyBody := a.emptyBody,
    createdToday := a.createdToday,
    createdThisWeek := a.createdThisWeek,
    updatedToday := a.updatedToday,
    colorsCount := a.colorsCount,
    topColor := pickTop a.colorsCount }

/-! ## Created-trend histogram (`createdLineData`) -/

/-- `counts[i] += 1` on a JS array of numbers (indices are always in range
where the loop uses it). -/
def bumpAt : List Nat → Nat → List Nat
  | [], _ => []
  | c :: rest, 0 => (c + 1) :: rest
  | c :: rest, i + 1 => c :: bumpAt rest i

/-- Calendar-day difference `Math.round((today - d) / 86400000)` between the
midnight of `now` and the midnight of `t`; both operands are multiples of
`msPerDay` in the fixed-offset model, so the division is exact and the
rounding is the identity. -/
def dayDiff (now t : Int) : Int := (msMidnight now - msMidnight t) / msPerDay

/-- One iteration of the `for (const n of notes)` loop of `createdLineData`
(`Dashboard.tsx`): notes without a usable `createdAt` are skipped, a note
`diffDays` days old lands in `counts[days - 1 - diffDays]` when
`0 ≤ diffDays < 7`. -/
def bucketStep (now : Int) (counts : List Nat) (n : ParsedNote) : List Nat :=
  match n.createdAt with
  | none => counts
  | some t =>
    let diffDays := dayDiff now t
    if 0 ≤ diffDays ∧ diffDays < 7 then bumpAt counts (7 - 1 - diffDays).toNat
    else counts

/-- The `counts` array computed by the `createdLineData` memo of
`Dashboard.tsx` (its `labels`/chart dressing carry no further data). -/
def createdLineCounts (now : Int) (notes : List ParsedNote) : List Nat :=
  notes.foldl (bucketStep now) (List.replicate 7 0)

/-! ## Role-check middleware -/

/-- Outcome of an Express middleware in the model: either a finished
response (status and error body) or transfer of control to the next
handler, untouched response implied. -/
inductive MwResult where
  | forbidden (status : Nat) (error : String) : MwResult
  | next : MwResult
deriving DecidableEq

/-- Source (`src/unnamed/part_000`):

    const authorizeRole = (...roles) => {
      return (req, res, next) => {
        if (!roles.includes(req.user.role)) {
          return res.status(403).json({ error: "Acces interdit" });
        }
        next();
      };
    };
-/
def authorizeRole (roles : List String) (userRole : String) : MwResult :=
  if ¬ roles.contains userRole then MwResult.forbidden 403 "Acces interdit"
  else MwResult.next

/-! ## Drag gesture state machine of `NoteCard` -/

/-- Pointer events a card can receive during a gesture: `down` on the card
header, and the document-level `move`/`up` observed while the listeners
installed by `mouseDown` are attached. -/
inductive DragEvent where
  | down (clientX clientY : Int)
  | move (clientX clientY : Int)
  | up
deriving DecidableEq

/-- State of one `NoteCard` relevant to dragging: the `mouseStartPos`
closure variable, the `position` React state (which the card's style feeds
back into `offsetLeft`/`offsetTop`), whether the document listeners
installed by `mouseDown` are attached, and a count of persisted update
calls issued so far. -/
structure CardState where
  mouseStartPos : Position
  position : Position
  listening : Bool
  persistCalls : Nat
deriving DecidableEq

/-- Transcription of `mouseDown`, `mouseMove` and `mouseUp` from
`NoteCard.tsx`: `mouseDown` records the cursor and attaches the listeners;
`mouseMove` computes `mouseMoveDir`, advances `mouseStartPos` and sets the
position through `setNewOffset`; `mouseUp` removes the two listeners and
does nothing else.  No branch issues a persistence call. -/
def handleEvent (s : CardState) : DragEvent → CardState
  | DragEvent.down x y => { s with mouseStartPos := ⟨x, y⟩, listening := true }
  | DragEvent.move x y =>
    if s.listening then
      let dir : Position := ⟨s.mouseStartPos.x - x, s.mouseStartPos.y - y⟩
      { s with
        mouseStartPos := ⟨x, y⟩,
        position := setNewOffset ⟨s.position.x, s.position.y⟩ dir }
    else s
  | DragEvent.up => if s.listening then { s with listening := false } else s

def runGesture (s : CardState) (events : List DragEvent) : CardState :=
  events.foldl handleEvent s

/-! ## Spec-side reference definitions (used only to compare against the
source-derived definitions above) -/

/-- Modelled from the spec's words: the keys of a frequency map "in
insertion order", i.e. each distinct key at its first occurrence. -/
def firstOccur (ks : List String) : List String :=
  ks.foldl (fun acc k => if k ∈ acc then acc else acc ++ [k]) []

/-- Modelled from the spec's words: "count by color id into a frequency
map", keys in first-encounter order, each carrying its number of
occurrences. -/
def specColorsCount (ks : List String) : List (String × Nat) :=
  (firstOccur ks).map (fun k => (k, ks.count k))

def maxCount (cc : List (String × Nat)) : Nat :=
  cc.foldr (fun kv m => max kv.2 m) 0

/-- Modelled from the spec's words: "`topColor` = key with max count (ties
broken by first-encountered ... leftmost in insertion order of the map)". -/
def specTopColor (cc : List (String × Nat)) : Option String :=
  (cc.find? (fun kv => kv.2 = maxCount cc)).map (fun kv => kv.1)

def sumCounts (cc : List (String × Nat)) : Nat := (cc.map (fun kv => kv.2)).sum

/-- String-coercion test `typeof parsed === "string"` of `cleanBody`. -/
def Json.isStr : Json → Bool
  | Json.str _ => true
  | _ => false

/-- The value `String(parsed ?? "").trim()` computed by `cleanBody` for a
non-string parse result. -/
def jsDisplay : Json → String
  | Json.null => ""
  | v => jsTrim (jsToString v)

/-! ## Helper lemmas -/

section Machinery

/-- Generic counting fold: if each step adds the indicator of `p` to the
measure `g` while preserving the invariant `I`, the fold adds `countP p`. -/
lemma foldl_count_inv {α β : Type _} (step : β → α → β) (I : β → Prop)
    (g : β → Nat) (p : α → Bool)
    (hI : ∀ b a, I b → I (step b a))
    (hstep : ∀ b a, I b → g (step b a) = g b + (if p a then 1 else 0)) :
    ∀ (l : List α) (b : β), I b → g (l.foldl step b) = g b + l.countP p := by
  intro l
  induction l with
  | nil => intro b _; simp
  | cons a as ih =>
    intro b hb
    rw [List.foldl_cons, ih _ (hI b a hb), hstep b a hb, List.countP_cons]
    cases hpa : p a <;> simp [hpa] <;> omega

lemma statsStep_withBody (t w : Int) (a : StatsAcc) (n : ParsedNote) :
    (statsStep t w a n).withBody =
      a.withBody + (if n.body.length > 0 then 1 else 0) := by
  cases hc : n.createdAt <;> cases hu : n.updatedAt <;>
    simp only [statsStep, hc, hu] <;> split_ifs <;> rfl

lemma statsStep_emptyBody (t w : Int) (a : StatsAcc) (n : ParsedNote) :
    (statsStep t w a n).emptyBody =
      a.emptyBody + (if n.body.length > 0 then 0 else 1) := by
  cases hc : n.createdAt <;> cases hu : n.updatedAt <;>
    simp only [statsStep, hc, hu] <;> split_ifs <;> rfl

lemma statsStep_createdToday (t w : Int) (a : StatsAcc) (n : ParsedNote) :
    (statsStep t w a n).createdToday =
      a.createdToday + (if (match n.createdAt with
        | some cAt => decide (cAt ≥ t)
        | none => false) then 1 else 0) := by
  cases hc : n.createdAt <;> cases hu : n.updatedAt <;>
    simp only [statsStep, hc, hu] <;> split_ifs <;> simp_all <;> omega

lemma statsStep_createdThisWeek (t w : Int) (a : StatsAcc) (n : ParsedNote) :
    (statsStep t w a n).createdThisWeek =
      a.createdThisWeek + (if (match n.createdAt with
        | some cAt => decide (cAt ≥ w)
        | none => false) then 1 else 0) := by
  cases hc : n.createdAt <;> cases hu : n.updatedAt <;>
    simp only [statsStep, hc, hu] <;> split_ifs <;> simp_all <;> omega

lemma statsStep_updatedToday (t w : Int) (a : StatsAcc) (n : ParsedNote) :
    (statsStep t w a n).updatedToday =
      a.updatedToday + (if (match n.updatedAt with
        | some uAt => decide (uAt ≥ t)
        | none => false) then 1 else 0) := by
  cases hc : n.createdAt <;> cases hu : n.updatedAt <;>
    simp only [statsStep, hc, hu] <;> split_ifs <;> simp_all <;> omega

lemma statsStep_colorsCount (t w : Int) (a : StatsAcc) (n : ParsedNote) :
    (statsStep t w a n).colorsCount = bump a.colorsCount (colorKey n) := by
  cases hc : n.createdAt <;> cases hu : n.updatedAt <;>
    simp only [statsStep, hc, hu] <;> split_ifs <;> rfl

lemma stats_withBody (t w : Int) (notes : List ParsedNote) :
    (stats t w notes).withBody = notes.countP (fun n => n.body.length > 0) := by
  have h := foldl_count_inv (statsStep t w) (fun _ => True)
    (fun a => a.withBody) (fun n => n.body.length > 0)
    (fun _ _ _ => trivial)
    (fun a n _ => by simpa using statsStep_withBody t w a n) notes {} trivial
  simpa [stats] using h

lemma stats_emptyBody (t w : Int) (notes : List ParsedNote) :
    (stats t w notes).emptyBody = notes.countP (fun n => n.body.length = 0) := by
  have h := foldl_count_inv (statsStep t w) (fun _ => True)
    (fun a => a.emptyBody) (fun n => n.body.length = 0)
    (fun _ _ _ => trivial)
    (fun a n _ => by
      have h := statsStep_emptyBody t w a n
      simp only [h]
      rcases Nat.eq_zero_or_pos n.body.length with h0 | h0
      · simp [h0]
      · simp [h0, Nat.pos_iff_ne_zero.mp h0])
    notes {} trivial
  simpa [stats] using h

lemma stats_createdThisWeek (t w : Int) (notes : List ParsedNote) :
    (stats t w notes).createdThisWeek = notes.countP (fun n =>
      match n.createdAt with
      | some cAt => decide (cAt ≥ w)
      | none => false) := by
  have h := foldl_count_inv (statsStep t w) (fun _ => True)
    (fun a => a.createdThisWeek)
    (fun n => match n.createdAt with
      | some cAt => decide (cAt ≥ w)
      | none => false)
    (fun _ _ _ => trivial)
    (fun a n _ => by simpa using statsStep_createdThisWeek t w a n) notes {} trivial
  simpa [stats] using h

lemma stats_total_eq (t w : Int) (notes : List ParsedNote) :
    (stats t w notes).total = notes.length := rfl

lemma foldl_statsStep_colorsCount (t w : Int) :
    ∀ (notes : List ParsedNote) (a : StatsAcc),
      (notes.foldl (statsStep t w) a).colorsCount =
        (notes.map colorKey).foldl bump a.colorsCount := by
  intro notes
  induction notes with
  | nil => intro a; rfl
  | cons n ns ih =>
    intro a
    rw [List.foldl_cons, ih, List.map_cons, List.foldl_cons, statsStep_colorsCount]

lemma stats_colorsCount (t w : Int) (notes : List ParsedNote) :
    (stats t w notes).colorsCount = (notes.map colorKey).foldl bump [] := by
  show (notes.foldl (statsStep t w) {}).colorsCount = _
  rw [foldl_statsStep_colorsCount]

lemma sumCounts_bump (cc : List (String × Nat)) (k : String) :
    sumCounts (bump cc k) = sumCounts cc + 1 := by
  induction cc with
  | nil => rfl
  | cons kv rest ih =>
    obtain ⟨k', c⟩ := kv
    by_cases h : k' = k <;> simp [bump, h, sumCounts] <;>
      simp [sumCounts] at ih <;> omega

lemma sumCounts_foldl_bump :
    ∀ (ks : List String) (cc : List (String × Nat)),
      sumCounts (ks.foldl bump cc) = sumCounts cc + ks.length := by
  intro ks
  induction ks with
  | nil => intro cc; simp
  | cons k ks ih =>
    intro cc
    rw [List.foldl_cons, ih, sumCounts_bump, List.length_cons]
    omega

lemma mem_foldl_insert (x : String) :
    ∀ (ks acc : List String),
      (x ∈ ks.foldl (fun acc k => if k ∈ acc then acc else acc ++ [k]) acc) ↔
        (x ∈ acc ∨ x ∈ ks) := by
  intro ks
  induction ks with
  | nil => intro acc; simp
  | cons k ks ih =>
    intro acc
    rw [List.foldl_cons, ih]
    by_cases h : k ∈ acc
    · rw [if_pos h]
      constructor
      · rintro (hx | hx)
        · exact Or.inl hx
        · exact Or.inr (List.mem_cons_of_mem _ hx)
      · rintro (hx | hx)
        · exact Or.inl hx
        · rcases List.mem_cons.mp hx with rfl | hx
          · exact Or.inl h
          · exact Or.inr hx
    · rw [if_neg h]
      simp [List.mem_append, or_assoc]

lemma mem_firstOccur (x : String) (ks : List String) :
    x ∈ firstOccur ks ↔ x ∈ ks := by
  have h := mem_foldl_insert x ks []
  simpa [firstOccur] using h

lemma foldl_insert_nodup :
    ∀ (ks acc : List String), acc.Nodup →
      (ks.foldl (fun acc k => if k ∈ acc then acc else acc ++ [k]) acc).Nodup := by
  intro ks
  induction ks with
  | nil => intro acc h; simpa using h
  | cons k ks ih =>
    intro acc h
    rw [List.foldl_cons]
    apply ih
    by_cases hk : k ∈ acc
    · simpa [hk] using h
    · simp [hk, List.nodup_append, h]

lemma firstOccur_nodup (ks : List String) : (firstOccur ks).Nodup :=
  foldl_insert_nodup ks [] List.nodup_nil

lemma firstOccur_append_one (ks : List String) (k : String) :
    firstOccur (ks ++ [k]) =
      if k ∈ firstOccur ks then firstOccur ks else firstOccur ks ++ [k] := by
  simp [firstOccur, List.foldl_append]

lemma bump_not_mem (k : String) :
    ∀ (cc : List (String × Nat)), (∀ kv ∈ cc, kv.1 ≠ k) →
      bump cc k = cc ++ [(k, 1)] := by
  intro cc
  induction cc with
  | nil => intro _; rfl
  | cons kv rest ih =>
    intro h
    obtain ⟨k', c⟩ := kv
    have hk' : k' ≠ k := h (k', c) (List.mem_cons_self _ _)
    simp [bump, hk']
    exact ih (fun kv hkv => h kv (List.mem_cons_of_mem _ hkv))

lemma bump_map_fn (f : String → Nat) (k : String) :
    ∀ (fo : List String), fo.Nodup → k ∈ fo →
      bump (fo.map fun x => (x, f x)) k =
        fo.map fun x => (x, if x = k then f x + 1 else f x) := by
  intro fo
  induction fo with
  | nil => intro _ h; exact absurd h (List.not_mem_nil k)
  | cons x fo' ih =>
    intro hnd hk
    rcases List.mem_cons.mp hk with rfl | hk'
    · have hnot : ∀ y ∈ fo', ¬ (y = k) := by
        intro y hy hyk
        exact (List.nodup_cons.mp hnd).1 (hyk ▸ hy)
      simp only [List.map_cons, bump, if_true]
      congr 1
      apply List.map_congr_left
      intro y hy
      simp [hnot y hy]
    · have hx : ¬ (x = k) := by
        intro hxk
        exact (List.nodup_cons.mp hnd).1 (hxk ▸ hk')
      simp only [List.map_cons, bump]
      rw [if_neg hx, if_neg hx, ih (List.nodup_cons.mp hnd).2 hk']

lemma specColorsCount_append (ks : List String) (k : String) :
    specColorsCount (ks ++ [k]) = bump (specColorsCount ks) k := by
  unfold specColorsCount
  rw [firstOccur_append_one]
  by_cases h : k ∈ firstOccur ks
  · rw [if_pos h]
    rw [bump_map_fn (fun x => ks.count x) k (firstOccur ks) (firstOccur_nodup ks) h]
    apply List.map_congr_left
    intro x _
    simp only [List.count_append, List.count_singleton']
    by_cases hx : x = k
    · simp [hx]
    · simp [hx, Ne.symm hx]
  · rw [if_neg h]
    have hknotks : k ∉ ks := fun hk => h ((mem_firstOccur k ks).mpr hk)
    rw [List.map_append]
    rw [bump_not_mem k _ (by
      intro kv hkv
      rcases List.mem_map.mp hkv with ⟨x, hx, rfl⟩
      intro hxk
      exact h (hxk ▸ hx))]
    congr 1
    · apply List.map_congr_left
      intro x hx
      have hxk : x ≠ k := fun hxk => h (hxk ▸ hx)
      simp [List.count_append, List.count_singleton', hxk]
    · simp [List.count_append, List.count_singleton',
        List.count_eq_zero_of_not_mem hknotks]

lemma foldl_bump_eq_spec (ks : List String) :
    ks.foldl bump [] = specColorsCount ks := by
  induction ks using List.reverseRecOn with
  | nil => rfl
  | append_singleton ks k ih =>
    rw [List.foldl_append, List.foldl_cons, List.foldl_nil, ih,
      specColorsCount_append]

def maxFrom (top : Int) (cc : List (String × Nat)) : Int :=
  cc.foldr (fun kv m => max (kv.2 : Int) m) top

lemma maxFrom_ge_base (top : Int) :
    ∀ cc : List (String × Nat), top ≤ maxFrom top cc := by
  intro cc
  induction cc with
  | nil => exact le_refl top
  | cons kv rest ih =>
    calc top ≤ maxFrom top rest := ih
    _ ≤ max (kv.2 : Int) (maxFrom top rest) := le_max_right _ _

lemma maxFrom_base_le {a b : Int} (h : b ≤ a) :
    ∀ cc : List (String × Nat), maxFrom a cc = max (maxFrom b cc) a := by
  intro cc
  induction cc with
  | nil => simp [maxFrom, max_eq_right h]
  | cons kv rest ih =>
    show max (kv.2 : Int) (maxFrom a rest) = max (max (kv.2 : Int) (maxFrom b rest)) a
    rw [ih, max_assoc]

lemma pickTopAux_eq :
    ∀ (cc : List (String × Nat)) (best : Option String) (top : Int),
      pickTopAux best top cc =
        if maxFrom top cc = top then best
        else (cc.find? (fun kv => (kv.2 : Int) = maxFrom top cc)).map
          (fun kv => kv.1) := by
  intro cc
  induction cc with
  | nil => intro best top; simp [pickTopAux, maxFrom]
  | cons kv rest ih =>
    intro best top
    obtain ⟨k, v⟩ := kv
    have hM : maxFrom top ((k, v) :: rest) = max (v : Int) (maxFrom top rest) := rfl
    by_cases hv : (v : Int) > top
    · rw [show pickTopAux best top ((k, v) :: rest) = pickTopAux (some k) v rest
        from by simp [pickTopAux, hv]]
      rw [ih (some k) v]
      have hbase : maxFrom v rest = max (maxFrom top rest) v :=
        maxFrom_base_le (le_of_lt hv) rest
      have hne : ¬ (maxFrom top ((k, v) :: rest) = top) := by
        rw [hM]
        have := maxFrom_ge_base top rest
        intro hEq
        omega
      rw [if_neg hne]
      by_cases hrest : maxFrom top rest ≤ (v : Int)
      · have h1 : maxFrom v rest = v := by rw [hbase]; omega
        have h2 : maxFrom top ((k, v) :: rest) = (v : Int) := by rw [hM]; omega
        rw [if_pos h1, h2]
        simp [List.find?]
      · have h1 : maxFrom v rest = maxFrom top rest := by rw [hbase]; omega
        have hne1 : ¬ (maxFrom v rest = v) := by omega
        have h2 : maxFrom top ((k, v) :: rest) = maxFrom top rest := by
          rw [hM]; omega
        rw [if_neg hne1, h2, h1]
        have hvne : ¬ ((v : Int) = maxFrom top rest) := by omega
        simp [List.find?, hvne]
    · rw [show pickTopAux best top ((k, v) :: rest) = pickTopAux best top rest
        from by simp [pickTopAux, hv]]
      rw [ih best top]
      have hge := maxFrom_ge_base top rest
      have h2 : maxFrom top ((k, v) :: rest) = maxFrom top rest := by
        rw [hM]; omega
      rw [h2]
      by_cases hEq : maxFrom top rest = top
      · rw [if_pos hEq, if_pos hEq]
      · rw [if_neg hEq, if_neg hEq]
        have hvne : ¬ ((v : Int) = maxFrom top rest) := by omega
        simp [List.find?, hvne]

lemma maxFrom_neg_one_eq_maxCount :
    ∀ (kv : String × Nat) (rest : List (String × Nat)),
      maxFrom (-1) (kv :: rest) = ((maxCount (kv :: rest) : Nat) : Int) := by
  intro kv rest
  induction rest generalizing kv with
  | nil =>
    show max (kv.2 : Int) (-1) = ((max kv.2 0 : Nat) : Int)
    omega
  | cons kv' rest ih =>
    show max (kv.2 : Int) (maxFrom (-1) (kv' :: rest)) =
      ((max kv.2 (maxCount (kv' :: rest)) : Nat) : Int)
    rw [ih kv']
    omega

lemma find?_congr_local {α : Type _} {p q : α → Bool} (h : ∀ x, p x = q x) :
    ∀ l : List α, l.find? p = l.find? q := by
  intro l
  induction l with
  | nil => rfl
  | cons a l ih =>
    cases hqa : q a
    · rw [List.find?_cons_of_neg _ (by simp [h a, hqa]),
        List.find?_cons_of_neg _ (by simp [hqa]), ih]
    · rw [List.find?_cons_of_pos _ (by simp [h a, hqa]),
        List.find?_cons_of_pos _ (by simp [hqa])]

lemma pickTop_eq_specTopColor (cc : List (String × Nat)) :
    pickTop cc = specTopColor cc := by
  cases cc with
  | nil => rfl
  | cons kv rest =>
    rw [pickTop, pickTopAux_eq]
    have hM := maxFrom_neg_one_eq_maxCount kv rest
    have hge : (0 : Int) ≤ ((maxCount (kv :: rest) : Nat) : Int) := by positivity
    rw [if_neg (by omega)]
    unfold specTopColor
    congr 1
    apply find?_congr_local
    intro x
    rw [hM, decide_eq_decide]
    constructor
    · intro hx; exact_mod_cast hx
    · intro hx; exact_mod_cast hx

lemma getD_replicate_zero : ∀ (m j : Nat), (List.replicate m (0 : Nat)).getD j 0 = 0 := by
  intro m
  induction m with
  | zero => intro j; simp [List.replicate]
  | succ m ih => intro j; cases j <;> simp [List.replicate, ih]

lemma bumpAt_length : ∀ (l : List Nat) (i : Nat), (bumpAt l i).length = l.length := by
  intro l
  induction l with
  | nil => intro i; rfl
  | cons c rest ih => intro i; cases i <;> simp [bumpAt, ih]

lemma bumpAt_getD : ∀ (l : List Nat) (i j : Nat),
    (bumpAt l i).getD j 0 = l.getD j 0 + (if i = j ∧ j < l.length then 1 else 0) := by
  intro l
  induction l with
  | nil => intro i j; simp [bumpAt]
  | cons c rest ih =>
    intro i j
    cases i with
    | zero =>
      cases j with
      | zero => simp [bumpAt]
      | succ j' => simp [bumpAt]
    | succ i' =>
      cases j with
      | zero => simp [bumpAt]
      | succ j' =>
        simp only [bumpAt, List.getD_cons_succ, List.length_cons]
        rw [ih i' j']
        split_ifs <;> omega

lemma bumpAt_sum : ∀ (l : List Nat) (i : Nat),
    (bumpAt l i).sum = l.sum + (if i < l.length then 1 else 0) := by
  intro l
  induction l with
  | nil => intro i; simp [bumpAt]
  | cons c rest ih =>
    intro i
    cases i with
    | zero => simp [bumpAt, List.length_cons]; omega
    | succ i' =>
      simp only [bumpAt, List.sum_cons, List.length_cons]
      rw [ih i']
      split_ifs <;> omega

lemma bucketStep_length (now : Int) (counts : List Nat) (n : ParsedNote) :
    (bucketStep now counts n).length = counts.length := by
  cases hc : n.createdAt
  · simp [bucketStep, hc]
  · simp only [bucketStep, hc]
    split_ifs <;> simp [bumpAt_length]

lemma bucketStep_getD (now : Int) (j : Nat) (hj : j < 7)
    (counts : List Nat) (hlen : counts.length = 7) (n : ParsedNote) :
    (bucketStep now counts n).getD j 0 = counts.getD j 0 +
      (if (match n.createdAt with
        | some t => decide (dayDiff now t = 6 - (j : Int))
        | none => false) then 1 else 0) := by
  cases hc : n.createdAt with
  | none => simp [bucketStep, hc]
  | some t =>
    simp only [bucketStep, hc, decide_eq_true_eq]
    by_cases hr : 0 ≤ dayDiff now t ∧ dayDiff now t < 7
    · rw [if_pos hr, bumpAt_getD, hlen]
      by_cases hp : dayDiff now t = 6 - (j : Int)
      · rw [if_pos (by omega : (7 - 1 - dayDiff now t).toNat = j ∧ j < 7), if_pos hp]
      · rw [if_neg (by omega : ¬ ((7 - 1 - dayDiff now t).toNat = j ∧ j < 7)),
          if_neg hp]
    · rw [if_neg hr, if_neg (by omega : ¬ (dayDiff now t = 6 - (j : Int)))]
      simp

lemma bucketStep_sum (now : Int) (counts : List Nat) (hlen : counts.length = 7)
    (n : ParsedNote) :
    (bucketStep now counts n).sum = counts.sum +
      (if (match n.createdAt with
        | some t => decide (0 ≤ dayDiff now t ∧ dayDiff now t < 7)
        | none => false) then 1 else 0) := by
  cases hc : n.createdAt with
  | none => simp [bucketStep, hc]
  | some t =>
    simp only [bucketStep, hc, decide_eq_true_eq]
    by_cases hr : 0 ≤ dayDiff now t ∧ dayDiff now t < 7
    · rw [if_pos hr, if_pos hr, bumpAt_sum, hlen,
        if_pos (by omega : (7 - 1 - dayDiff now t).toNat < 7)]
    · rw [if_neg hr, if_neg hr]
      simp

end Machinery

lemma handleEvent_persistCalls (s : CardState) (e : DragEvent) :
    (handleEvent s e).persistCalls = s.persistCalls := by
  cases e <;> simp [handleEvent] <;> split <;> rfl

lemma runGesture_persistCalls (events : List DragEvent) :
    ∀ s : CardState, (runGesture s events).persistCalls = s.persistCalls := by
  induction events with
  | nil => intro s; rfl
  | cons e es ih =>
    intro s
    show (runGesture (handleEvent s e) es).persistCalls = s.persistCalls
    rw [ih, handleEvent_persistCalls]

/-! ## Claim theorems -/

/-- C1: for every starting offset and every delta, `setNewOffset` returns
componentwise `max 0 (offset - delta)`; both components of the result are
non-negative.  The function is a pure function of its two arguments by
construction (its embedding is a plain `def`). -/
theorem c1_setNewOffset_clamps (card : CardOffsets) (mouseMoveDir : Position) :
    setNewOffset card mouseMoveDir =
      { x := max 0 (card.offsetLeft - mouseMoveDir.x),
        y := max 0 (card.offsetTop - mouseMoveDir.y) } ∧
    0 ≤ (setNewOffset card mouseMoveDir).x ∧
    0 ≤ (setNewOffset card mouseMoveDir).y := by
  refine ⟨?_, ?_, ?_⟩ <;> simp [setNewOffset] <;> split_ifs <;> omega

/-- C8: the role-check middleware responds 403 with an error body exactly
when the caller's role is not in the allowed set, and passes control to the
next handler (leaving the response untouched, which is all the `next`
outcome of the model carries) exactly when it is. -/
theorem c8_authorizeRole_forbids (roles : List String) (userRole : String) :
    (authorizeRole roles userRole = MwResult.forbidden 403 "Acces interdit" ↔
        userRole ∉ roles) ∧
    (authorizeRole roles userRole = MwResult.next ↔ userRole ∈ roles) := by
  by_cases h : userRole ∈ roles <;> simp [authorizeRole, h]

/-- C3 (counterexample): on the concrete drag gesture pointer-down,
pointer-move, pointer-up, the number of persisted update calls issued by
the `NoteCard` handlers is 0, not the 1 the claim requires: `mouseUp` only
removes the document listeners and persists nothing. -/
theorem c3_persist_on_release_cex :
    (runGesture
        { mouseStartPos := ⟨0, 0⟩, position := ⟨100, 100⟩,
          listening := false, persistCalls := 0 }
        [DragEvent.down 10 10, DragEvent.move 4 7, DragEvent.up]).persistCalls = 0 ∧
    ¬ (runGesture
        { mouseStartPos := ⟨0, 0⟩, position := ⟨100, 100⟩,
          listening := false, persistCalls := 0 }
        [DragEvent.down 10 10, DragEvent.move 4 7, DragEvent.up]).persistCalls = 1 := by
  decide

/-- C3 (amended): a drag gesture issues no persisted update call at all:
every event sequence leaves the count of persistence calls unchanged, and
pointer-up merely detaches the document listeners, keeping the optimistic
local position. -/
theorem c3_no_persist_amended (s : CardState) (events : List DragEvent) :
    (runGesture s events).persistCalls = s.persistCalls ∧
    handleEvent s DragEvent.up = { s with listening := false } := by
  refine ⟨runGesture_persistCalls events s, ?_⟩
  cases s with
  | mk m p l c => cases l <;> simp [handleEvent]

/-- C2 (counterexample): a stored note whose `colors` field holds malformed
JSON (here the text `oops`, with well-formed `body` and `position`) makes
the `NoteCard` render throw — the component parses with raw `JSON.parse`,
so the render is `none` in the model, refuting "rendering a note card never
throws". -/
theorem c2_render_throws_cex :
    jsonParse "oops" = none ∧
    renderNoteCard
      { body := "\"x\"", colors := "oops",
        position := "\x7b\"x\":0,\"y\":0\x7d" } = none := by
  exact ⟨rfl, rfl⟩

/-- C2 (amended): the client-side parsing helpers do recover from malformed
JSON with safe defaults — `safeJsonParse` returns the given fallback,
`cleanBody` the raw trimmed string, and the dashboard's per-note parsing
maps malformed `colors`/`position` to the `null` fallback — but the
`NoteCard` component itself parses with raw `JSON.parse`, so rendering a
note card whose `colors` field is malformed throws. -/
theorem c2_parse_recovery_amended (s raw : String) (fb : Json) (n : RawNote) :
    (jsonParse s = none → safeJsonParse s fb = fb) ∧
    (jsonParse (jsTrim raw) = none → cleanBody raw = jsTrim raw) ∧
    (jsonParse n.colors = none → (parseNote n).colors = Json.null) ∧
    (jsonParse n.position = none → (parseNote n).position = Json.null) ∧
    (jsonParse n.colors = none → renderNoteCard n = none) := by
  refine ⟨?_, ?_, ?_, ?_, ?_⟩ <;> intro h
  · simp [safeJsonParse, h]
  · simp [cleanBody, h]
  · simp [parseNote, safeJsonParse, h]
  · simp [parseNote, safeJsonParse, h]
  · simp [renderNoteCard, h]

/-- C2 (witness): the amended statement applied at concrete inputs. -/
theorem c2_parse_recovery_witness :
    safeJsonParse "oops" (Json.str "fb") = Json.str "fb" ∧
    cleanBody " plain " = jsTrim " plain " ∧
    renderNoteCard
      { body := "\"x\"", colors := "not json", position := "[0]" } = none := by
  refine ⟨?_, ?_, ?_⟩
  · exact (c2_parse_recovery_amended "oops" " plain " (Json.str "fb")
      { body := "\"x\"", colors := "not json", position := "[0]" }).1 (by rfl)
  · exact (c2_parse_recovery_amended "oops" " plain " (Json.str "fb")
      { body := "\"x\"", colors := "not json", position := "[0]" }).2.1 (by rfl)
  · exact (c2_parse_recovery_amended "oops" " plain " (Json.str "fb")
      { body := "\"x\"", colors := "not json", position := "[0]" }).2.2.2.2 (by rfl)

/-- A parsed note carrying only a color id, as in the spec's three-note
aggregator example. -/
def noteOfColorId (id : String) : ParsedNote :=
  { body := "", colors := Json.obj [("id", Json.str id)], position := Json.null }

/-- C4: the aggregator counts notes by color id into a frequency map in
insertion order (`specColorsCount` is the spec-side reference: distinct keys
at first occurrence, each with its occurrence count), `topColor` is the
first-encountered key of maximum count (`specTopColor` is the spec-side
reference), and on the red/red/blue example the results are
`{red: 2, blue: 1}` and `"red"`. -/
theorem c4_colorsCount_topColor (today weekStart : Int) (notes : List ParsedNote) :
    (stats today weekStart notes).colorsCount = specColorsCount (notes.map colorKey) ∧
    (stats today weekStart notes).topColor =
      specTopColor ((stats today weekStart notes).colorsCount) ∧
    (stats today weekStart
        [noteOfColorId "red", noteOfColorId "red", noteOfColorId "blue"]).colorsCount
      = [("red", 2), ("blue", 1)] ∧
    (stats today weekStart
        [noteOfColorId "red", noteOfColorId "red", noteOfColorId "blue"]).topColor
      = some "red" := by
  refine ⟨?_, ?_, rfl, rfl⟩
  · rw [stats_colorsCount, foldl_bump_eq_spec]
  · have h : (stats today weekStart notes).topColor =
        pickTop ((stats today weekStart notes).colorsCount) := rfl
    rw [h, pickTop_eq_specTopColor]

/-- C5: `startOfWeekMonday` returns the most recent Monday at local
midnight — when now is a Wednesday (`jsGetDay = 3`) it is two days before
today's midnight, when now is a Sunday (`jsGetDay = 0`) six days before;
in general the result is a Monday, lies at a midnight, is at most today's
midnight, and is less than seven days in the past — and `createdThisWeek`
counts exactly the notes whose (parsable) `createdAt` is at or after that
instant. -/
theorem c5_startOfWeekMonday_correct (now : Int) :
    (jsGetDay now = 3 → startOfWeekMonday now = msMidnight now - 2 * msPerDay) ∧
    (jsGetDay now = 0 → startOfWeekMonday now = msMidnight now - 6 * msPerDay) ∧
    jsGetDay (startOfWeekMonday now) = 1 ∧
    startOfWeekMonday now % msPerDay = 0 ∧
    startOfWeekMonday now ≤ msMidnight now ∧
    msMidnight now - startOfWeekMonday now < 7 * msPerDay ∧
    (∀ (today : Int) (notes : List ParsedNote),
      (stats today (startOfWeekMonday now) notes).createdThisWeek =
        notes.countP (fun n => match n.createdAt with
          | some cAt => decide (cAt ≥ startOfWeekMonday now)
          | none => false)) := by
  refine ⟨?_, ?_, ?_, ?_, ?_, ?_, ?_⟩
  · intro h
    simp only [startOfWeekMonday, jsGetDay, msMidnight, msPerDay] at *
    split_ifs <;> omega
  · intro h
    simp only [startOfWeekMonday, jsGetDay, msMidnight, msPerDay] at *
    split_ifs <;> omega
  · simp only [startOfWeekMonday, jsGetDay, msMidnight, msPerDay]
    split_ifs <;> omega
  · simp only [startOfWeekMonday, jsGetDay, msMidnight, msPerDay]
    split_ifs <;> omega
  · simp only [startOfWeekMonday, jsGetDay, msMidnight, msPerDay]
    split_ifs <;> omega
  · simp only [startOfWeekMonday, jsGetDay, msMidnight, msPerDay]
    split_ifs <;> omega
  · intro today notes
    rw [stats_createdThisWeek]

/-- C5 (witness): the Wednesday clause at 1am of Jan 7 1970 (a Wednesday)
and the Sunday clause at 1am of Jan 4 1970 (a Sunday). -/
theorem c5_startOfWeekMonday_witness :
    startOfWeekMonday (6 * 86400000 + 3600000) =
      msMidnight (6 * 86400000 + 3600000) - 2 * msPerDay ∧
    startOfWeekMonday (3 * 86400000 + 3600000) =
      msMidnight (3 * 86400000 + 3600000) - 6 * msPerDay := by
  constructor
  · exact (c5_startOfWeekMonday_correct (6 * 86400000 + 3600000)).1 (by decide)
  · exact (c5_startOfWeekMonday_correct (3 * 86400000 + 3600000)).2.1 (by decide)

/-- C6: `cleanBody` unwraps exactly one level of JSON string-encoding
(a successful parse to a string yields that string, trimmed) and falls back
to the raw trimmed string when parsing fails; in particular it maps the
JSON-encoded string to `hello` and the unparsable `plain` to itself. -/
theorem c6_cleanBody_unwrap (s v : String) :
    (jsonParse (jsTrim s) = some (Json.str v) → cleanBody s = jsTrim v) ∧
    (jsonParse (jsTrim s) = none → cleanBody s = jsTrim s) ∧
    cleanBody "\"hello\"" = "hello" ∧
    cleanBody "plain" = "plain" := by
  refine ⟨?_, ?_, by rfl, by rfl⟩ <;> intro h <;> simp [cleanBody, h]

/-- C6 (witness): the string-unwrapping clause applied at the JSON-encoded
string. -/
theorem c6_cleanBody_witness : cleanBody "\"hello\"" = jsTrim "hello" :=
  (c6_cleanBody_unwrap "\"hello\"" "hello").1 (by rfl)

/-- C7: in the 7-day trailing creation histogram each note lands in the
bucket of its calendar-day difference from today (difference `d` is stored
at array index `6 - d`, today rightmost), and summing all buckets counts
exactly the notes with a parsable timestamp whose difference lies in
`0..6` — notes with `none` timestamps or out-of-range differences are in no
bucket. -/
theorem c7_created_histogram (now : Int) (notes : List ParsedNote) (d : Nat)
    (hd : d < 7) :
    (createdLineCounts now notes).getD (6 - d) 0 =
      notes.countP (fun n => match n.createdAt with
        | some t => decide (dayDiff now t = (d : Int))
        | none => false) ∧
    (createdLineCounts now notes).sum =
      notes.countP (fun n => match n.createdAt with
        | some t => decide (0 ≤ dayDiff now t ∧ dayDiff now t < 7)
        | none => false) := by
  constructor
  · have h := foldl_count_inv (bucketStep now) (fun l => l.length = 7)
      (fun l => l.getD (6 - d) 0)
      (fun n => match n.createdAt with
        | some t => decide (dayDiff now t = 6 - ((6 - d : Nat) : Int))
        | none => false)
      (fun l n hl => by
        show (bucketStep now l n).length = 7
        rw [bucketStep_length]; exact hl)
      (fun l n hl => bucketStep_getD now (6 - d) (by omega) l hl n)
      notes (List.replicate 7 0) (by simp)
    have hpred : (fun n : ParsedNote => match n.createdAt with
        | some t => decide (dayDiff now t = 6 - ((6 - d : Nat) : Int))
        | none => false) = (fun n : ParsedNote => match n.createdAt with
        | some t => decide (dayDiff now t = (d : Int))
        | none => false) := by
      funext n
      cases hc : n.createdAt
      · rfl
      · simp only
        rw [decide_eq_decide]
        constructor <;> intro hx <;> omega
    have h2 : (List.foldl (bucketStep now) (List.replicate 7 0) notes).getD (6 - d) 0 =
        (List.replicate 7 0 : List Nat).getD (6 - d) 0 +
          notes.countP (fun n => match n.createdAt with
            | some t => decide (dayDiff now t = 6 - ((6 - d : Nat) : Int))
            | none => false) := h
    rw [createdLineCounts, h2, hpred, getD_replicate_zero, Nat.zero_add]
  · have h := foldl_count_inv (bucketStep now) (fun l => l.length = 7)
      (fun l => l.sum)
      (fun n => match n.createdAt with
        | some t => decide (0 ≤ dayDiff now t ∧ dayDiff now t < 7)
        | none => false)
      (fun l n hl => by
        show (bucketStep now l n).length = 7
        rw [bucketStep_length]; exact hl)
      (fun l n hl => bucketStep_sum now l hl n)
      notes (List.replicate 7 0) (by simp)
    have h2 : (List.foldl (bucketStep now) (List.replicate 7 0) notes).sum =
        (List.replicate 7 0 : List Nat).sum +
          notes.countP (fun n => match n.createdAt with
            | some t => decide (0 ≤ dayDiff now t ∧ dayDiff now t < 7)
            | none => false) := h
    rw [createdLineCounts, h2]
    simp

/-- C7 (witness): the bucket clause at a note created exactly two calendar
days before `now = 9 * msPerDay` (so its difference is 2 and it lands at
index 4), next to an unparsable-timestamp note that lands nowhere. -/
theorem c7_created_histogram_witness :
    (createdLineCounts (9 * 86400000)
        [{ body := "", colors := Json.null, position := Json.null,
           createdAt := some (7 * 86400000 + 60000) },
         { body := "", colors := Json.null, position := Json.null }]).getD 4 0 = 1 ∧
    (createdLineCounts (9 * 86400000)
        [{ body := "", colors := Json.null, position := Json.null,
           createdAt := some (7 * 86400000 + 60000) },
         { body := "", colors := Json.null, position := Json.null }]).sum = 1 := by
  have h := c7_created_histogram (9 * 86400000)
    [{ body := "", colors := Json.null, position := Json.null,
       createdAt := some (7 * 86400000 + 60000) },
     { body := "", colors := Json.null, position := Json.null }] 2 (by decide)
  constructor
  · rw [show (4 : Nat) = 6 - 2 from rfl, h.1]
    decide
  · rw [h.2]
    decide

/-- C9: every note is counted in exactly one of `withBody`/`emptyBody`, so
their sum is `total`; every note is counted under exactly one color key, so
the counts in `colorsCount` also sum to `total`; and a note whose stored
`colors` string does not parse gets the key `"unknown"`. -/
theorem c9_stats_partition (today weekStart : Int) (notes : List ParsedNote)
    (n : RawNote) :
    (stats today weekStart notes).withBody + (stats today weekStart notes).emptyBody
        = (stats today weekStart notes).total ∧
    sumCounts ((stats today weekStart notes).colorsCount)
        = (stats today weekStart notes).total ∧
    (jsonParse n.colors = none → colorKey (parseNote n) = "unknown") := by
  refine ⟨?_, ?_, ?_⟩
  · rw [stats_withBody, stats_emptyBody, stats_total_eq]
    induction notes with
    | nil => rfl
    | cons m ms ih =>
      rw [List.countP_cons, List.countP_cons, List.length_cons]
      rcases Nat.eq_zero_or_pos m.body.length with h0 | h0
      · rw [if_neg (show ¬ (decide (m.body.length > 0) = true) by simp [h0]),
          if_pos (show decide (m.body.length = 0) = true by simp [h0])]
        omega
      · rw [if_pos (show decide (m.body.length > 0) = true by simp [h0]),
          if_neg (show ¬ (decide (m.body.length = 0) = true) by
            simp [Nat.pos_iff_ne_zero.mp h0])]
        omega
  · rw [stats_colorsCount, stats_total_eq, sumCounts_foldl_bump]
    simp [sumCounts]
  · intro h
    simp [colorKey, parseNote, safeJsonParse, h, colorIdOf]

/-- C9 (witness): the partition sums on a concrete two-note list and the
`"unknown"` fallback on a malformed `colors` string. -/
theorem c9_stats_partition_witness :
    (stats 0 0 [noteOfColorId "red", noteOfColorId "red"]).withBody +
        (stats 0 0 [noteOfColorId "red", noteOfColorId "red"]).emptyBody
      = (stats 0 0 [noteOfColorId "red", noteOfColorId "red"]).total ∧
    colorKey (parseNote { body := "", colors := "oops", position := "" })
      = "unknown" := by
  constructor
  · exact (c9_stats_partition 0 0 [noteOfColorId "red", noteOfColorId "red"]
      { body := "", colors := "", position := "" }).1
  · exact (c9_stats_partition 0 0 []
      { body := "", colors := "oops", position := "" }).2.2 (by rfl)

/-- C10: when the trimmed input parses to a non-string JSON value,
`cleanBody` returns the trimmed JavaScript string rendering of that value
(`jsDisplay`: empty for `null`, decimal for numbers, `String(v)` in
general); in particular `cleanBody "null" = ""`, and a note stored with
body `null` is classified as empty by the aggregator. -/
theorem c10_cleanBody_nonstring (s : String) (v : Json) :
    (jsonParse (jsTrim s) = some v → v.isStr = false → cleanBody s = jsDisplay v) ∧
    cleanBody "null" = "" ∧
    (∀ (today weekStart : Int) (n : RawNote), n.body = "null" →
      (stats today weekStart [parseNote n]).emptyBody = 1 ∧
      (stats today weekStart [parseNote n]).withBody = 0) := by
  refine ⟨?_, by rfl, ?_⟩
  · intro h hstr
    cases v <;> simp_all [cleanBody, jsDisplay, Json.isStr]
  · intro today weekStart n hb
    have hbody : (parseNote n).body = "" := by
      simp [parseNote, hb]
      rfl
    constructor
    · rw [stats_emptyBody]
      simp [hbody]
    · rw [stats_withBody]
      simp [hbody]

/-- C10 (witness): the non-string clause applied at the input `null`. -/
theorem c10_cleanBody_witness :
    cleanBody "null" = jsDisplay Json.null ∧
    (stats 0 0 [parseNote { body := "null", colors := "", position := "" }]).emptyBody
      = 1 :=
  ⟨(c10_cleanBody_nonstring "null" Json.null).1 (by rfl) (by rfl),
   ((c10_cleanBody_nonstring "x" Json.null).2.2 0 0
      { body := "null", colors := "", position := "" } (by rfl)).1⟩

end NotesBoard
